import Mathlib

/-!
Verification development for the sentifm repository (three Python files:
`split.py`, `prune.py`, `convert.py`).  Strings are modelled as `List Char`;
Python `int` is modelled as `Int`, counts as `Nat`.  Whitespace and case
operations are modelled over the ASCII range, which is the range exercised
by the pipeline's patterns.
-/

namespace Sentifm

/-- ASCII whitespace, modelling Python `\s` / `str.strip` on the inputs at hand. -/
def isWS (c : Char) : Bool :=
  c = ' ' || c = '\t' || c = '\n' || c = '\x0d' || c = '\x0b' || c = '\x0c'

/-- The straight single-quote character. -/
def sq : Char := Char.ofNat 39

/-- The straight double-quote character. -/
def dq : Char := Char.ofNat 34

/-- Left curly single quote U+2018. -/
def lsq : Char := Char.ofNat 0x2018

/-- Right curly single quote U+2019. -/
def rsq : Char := Char.ofNat 0x2019

/-- Left curly double quote U+201C. -/
def ldq : Char := Char.ofNat 0x201c

/-- Right curly double quote U+201D. -/
def rdq : Char := Char.ofNat 0x201d

/-- The four curly-quote replacements of `prune.normalize_text`, char-wise
(each Python `str.replace` call there replaces a one-char substring by a
one-char string). -/
def fixQuote (c : Char) : Char :=
  if c = lsq || c = rsq then sq
  else if c = ldq || c = rdq then dq
  else c

/-- Python `str.lstrip` over ASCII whitespace. -/
def trimLeft (l : List Char) : List Char := l.dropWhile isWS

/-- Python `str.rstrip` over ASCII whitespace. -/
def trimRight : List Char → List Char
  | [] => []
  | c :: cs =>
    match trimRight cs with
    | [] => if isWS c then [] else [c]
    | d :: ds => c :: d :: ds

/-- Python `str.strip`. -/
def trim (l : List Char) : List Char := trimRight (trimLeft l)

/-- `WS_RE.sub(" ", s)`: replace every maximal whitespace run by one space. -/
def collapseWS : List Char → List Char
  | [] => []
  | [c] => if isWS c then [' '] else [c]
  | c :: d :: cs =>
    if isWS c then
      if isWS d then collapseWS (d :: cs)
      else ' ' :: collapseWS (d :: cs)
    else c :: collapseWS (d :: cs)

/-- `prune.normalize_text` on char lists: strip, replace curly quotes,
collapse whitespace runs to single spaces. -/
def normTextL (l : List Char) : List Char :=
  collapseWS (List.map fixQuote (trim l))

/-- `split.normalize_ws` on char lists: collapse whitespace runs, then strip. -/
def normWSL (l : List Char) : List Char :=
  trimRight (trimLeft (collapseWS l))

/-- `prune.normalize_text` at string level. -/
def normalize_text (s : String) : String := String.mk (normTextL s.data)

/-- `split.normalize_ws` at string level. -/
def normalize_ws (s : String) : String := String.mk (normWSL s.data)

/-! ### Canonical-form predicates used for the idempotence proofs -/

/-- The one-step condition of `wsCanon`: a whitespace char must be a plain
space and must not be followed by another whitespace char. -/
def okPair (c : Char) (d? : Option Char) : Bool :=
  !isWS c || (c = ' ' && (match d? with | some d => !isWS d | none => true))

/-- Every whitespace char is a single space not followed by whitespace. -/
def wsCanon : List Char → Bool
  | [] => true
  | c :: cs => okPair c cs.head? && wsCanon cs

/-- The head (if any) is not whitespace. -/
def noLeadWS : List Char → Bool
  | [] => true
  | c :: _ => !isWS c

/-- The last element (if any) is not whitespace. -/
def noTrailWS : List Char → Bool
  | [] => true
  | [c] => !isWS c
  | _ :: d :: cs => noTrailWS (d :: cs)

/-- No curly-quote characters appear. -/
def noCurly (l : List Char) : Bool :=
  l.all fun c => !(c = lsq || c = rsq || c = ldq || c = rdq)

/-! ### split.py: interval overlap, label computation, sentence splitting -/

/-- `split.overlaps`: half-open interval intersection test. -/
def overlaps (a0 a1 b0 b1 : Int) : Bool := a0 < b1 && b0 < a1

/-- The sorted list of distinct event types whose spans overlap the sentence
span, i.e. `sorted(hit_types)` for the set built in `split.main`. -/
def hitTypesSorted (s0 s1 : Int) (spans : List (String × Int × Int)) : List String :=
  List.insertionSort (fun a b => a ≤ b)
    (((spans.filter fun sp => overlaps s0 s1 sp.2.1 sp.2.2).map Prod.fst).dedup)

/-- Whether the last char of the accumulated (reversed) fragment licenses a
lookbehind split point of `SPLIT_RE`: one of `;` `:` em-dash en-dash, or the
second dash of `--`. -/
def delimAtEnd (acc : List Char) : Bool :=
  match acc with
  | [] => false
  | c :: rest =>
    c = ';' || c = ':' || c = Char.ofNat 0x2014 || c = Char.ofNat 0x2013 ||
    (c = '-' && (match rest with | d :: _ => d = '-' | [] => false))

/-- Left-to-right scan implementing `SPLIT_RE.split`: a whitespace run after a
delimiter, or a bare newline run, separates fragments; `acc` holds the current
fragment reversed. -/
def splitReAux (acc : List Char) : List Char → List (List Char)
  | [] => [acc.reverse]
  | c :: cs =>
    if delimAtEnd acc && isWS c then
      acc.reverse :: splitReAux [] (List.dropWhile isWS cs)
    else if c = '\n' then
      acc.reverse :: splitReAux [] (List.dropWhile (fun d => d = '\n') cs)
    else
      splitReAux (c :: acc) cs
termination_by l => l.length
decreasing_by
  · have h : ∀ (q : Char → Bool) (m : List Char), (m.dropWhile q).length ≤ m.length := by
      intro q m
      induction m with
      | nil => simp [List.dropWhile]
      | cons a as ih =>
        rw [List.dropWhile_cons]
        split
        · exact Nat.le_succ_of_le ih
        · simp
    simp only [List.length_cons]
    exact Nat.lt_succ_of_le (h _ _)
  · have h : ∀ (q : Char → Bool) (m : List Char), (m.dropWhile q).length ≤ m.length := by
      intro q m
      induction m with
      | nil => simp [List.dropWhile]
      | cons a as ih =>
        rw [List.dropWhile_cons]
        split
        · exact Nat.le_succ_of_le ih
        · simp
    simp only [List.length_cons]
    exact Nat.lt_succ_of_le (h _ _)
  · simp

/-- `SPLIT_RE.split(t)`. -/
def splitRe (l : List Char) : List (List Char) := splitReAux [] l

/-- Python `p2.split(", ")`: split on the literal two-char comma-space. -/
def splitCS : List Char → List (List Char)
  | [] => [[]]
  | ',' :: ' ' :: rest => [] :: splitCS rest
  | c :: rest =>
    match splitCS rest with
    | [] => [[c]]
    | p :: ps => (c :: p) :: ps

/-- `split.split_sentence_like`: normalize and bound-check the whole sentence,
or (with extra_split) split on SPLIT_RE, keep in-range fragments, and give
over-long fragments one comma-space fallback split. -/
def split_sentence_like (text : List Char) (min_len max_chars : Int)
    (extra_split : Bool) : List (List Char) :=
  if !extra_split then
    let t2 := normWSL text
    if min_len ≤ (t2.length : Int) && (t2.length : Int) ≤ max_chars then [t2] else []
  else
    let parts := (splitRe text).filter fun p => !p.isEmpty && !(p.all isWS)
    parts.flatMap fun p =>
      let p2 := normWSL p
      if (p2.length : Int) < min_len then []
      else if max_chars < (p2.length : Int) then
        (((splitCS p2).filter fun x => !x.isEmpty).map normWSL).filter
          fun sp => min_len ≤ (sp.length : Int) && (sp.length : Int) ≤ max_chars
      else [p2]

/-- The per-sentence emission of `split.main`: the label and types string are
computed once from the original sentence span `(s0, s1)` against the entity
spans, then every split piece is written with that label and types string. -/
def processSentence (s0 s1 : Int) (spans : List (String × Int × Int))
    (min_len max_chars : Int) (extra_split : Bool) (text : List Char) :
    List (String × Nat × String) :=
  let hits := hitTypesSorted s0 s1 spans
  let y : Nat := if hits.isEmpty then 0 else 1
  let types_str := String.intercalate "|" hits
  (split_sentence_like text min_len max_chars extra_split).map
    fun piece => (String.mk piece, y, types_str)

/-! ### prune.py: filter-cascade regex matchers -/

/-- ASCII lower-casing, for case-insensitive matching and the dedupe key. -/
def asciiLower (c : Char) : Char :=
  if 'A' ≤ c && c ≤ 'Z' then Char.ofNat (c.toNat + 32) else c

/-- Python `str.lower` on the ASCII range. -/
def lowerL (l : List Char) : List Char := l.map asciiLower

/-- ASCII upper-casing. -/
def asciiUpper (c : Char) : Char :=
  if 'a' ≤ c && c ≤ 'z' then Char.ofNat (c.toNat - 32) else c

/-- Regex `\w` on the ASCII range. -/
def isWordChar (c : Char) : Bool := c.isAlphanum || c = '_'

/-- Case-insensitive literal match at the head; returns the rest on success. -/
def stripCI : List Char → List Char → Option (List Char)
  | [], l => some l
  | _ :: _, [] => none
  | p :: ps, c :: cs => if asciiLower c = asciiLower p then stripCI ps cs else none

/-- `\S` immediately follows: the rest is nonempty with a non-space head. -/
def nonWSHead (r : List Char) : Bool :=
  match r with
  | c :: _ => !isWS c
  | [] => false

/-- A match of `URL_RE = (https?://|www\.)\S+` starts at the head. -/
def urlAt (l : List Char) : Bool :=
  (match stripCI "https://".data l with | some r => nonWSHead r | none => false) ||
  (match stripCI "http://".data l with | some r => nonWSHead r | none => false) ||
  (match stripCI "www.".data l with | some r => nonWSHead r | none => false)

/-- `URL_RE.search`. -/
def urlSearch (l : List Char) : Bool := l.tails.any urlAt

/-- The char class `[\w\.-]` of `EMAIL_RE`. -/
def isEmailCl (c : Char) : Bool := isWordChar c || c = '.' || c = '-'

/-- Within the maximal class run after the `@`, a dot at index at least one is
immediately followed by a word char (this makes `[\w\.-]+\.\w+\b` matchable). -/
def dotWordIn : List Char → Bool
  | [] => false
  | [_] => false
  | _ :: d :: ds =>
    (d = '.' && (match ds with | e :: _ => isWordChar e | [] => false)) || dotWordIn (d :: ds)

/-- A match of the body of `EMAIL_RE` starts at the head. -/
def emailMatchAt (l : List Char) : Bool :=
  !(l.takeWhile isEmailCl).isEmpty &&
  (match l.dropWhile isEmailCl with
   | '@' :: rest2 => dotWordIn (rest2.takeWhile isEmailCl)
   | _ => false)

/-- Regex `\b` between an optional previous char and the current char. -/
def wordBoundary (prev : Option Char) (c : Char) : Bool :=
  match prev with
  | none => isWordChar c
  | some p => isWordChar c != isWordChar p

/-- Scan for `EMAIL_RE` carrying the previous char for the `\b` test. -/
def emailFrom : Option Char → List Char → Bool
  | _, [] => false
  | prev, c :: cs => (wordBoundary prev c && emailMatchAt (c :: cs)) || emailFrom (some c) cs

/-- `EMAIL_RE.search`. -/
def emailSearch (l : List Char) : Bool := emailFrom none l

/-- A `\b ft.com \b` match starts at the head (the `www.ft.com` alternative of
`FT_LINK_RE` is subsumed: its inner `ft.com` occurrence has `.` before it). -/
def ftAt (prev : Option Char) (l : List Char) : Bool :=
  wordBoundary prev 'f' &&
  (match stripCI "ft.com".data l with
   | some r => (match r with | [] => true | d :: _ => !isWordChar d)
   | none => false)

/-- Scan for `FT_LINK_RE` carrying the previous char. -/
def ftFrom : Option Char → List Char → Bool
  | _, [] => false
  | prev, c :: cs => ftAt prev (c :: cs) || ftFrom (some c) cs

/-- `FT_LINK_RE.search`. -/
def ftSearch (l : List Char) : Bool := ftFrom none l

/-- The char class `[A-Za-z\.\- ]` of `BYLINE_RE`. -/
def isBylineCl (c : Char) : Bool := c.isAlpha || c = '.' || c = '-' || c = ' '

/-- All suffixes obtained by removing a nonempty run of byline-class chars
from the front (the possible remainders after `[A-Za-z\.\- ]+`). -/
def clSuffixes : List Char → List (List Char)
  | [] => []
  | c :: cs => if isBylineCl c then cs :: clSuffixes cs else []

/-- The optional group `and\s+[A-Z][A-Za-z\.\- ]+` of `BYLINE_RE` followed by
trailing `\s*$`. -/
def bylineGroupTail (m : List Char) : Bool :=
  match stripCI "and".data m with
  | none => false
  | some r =>
    !(r.takeWhile isWS).isEmpty &&
    (match r.dropWhile isWS with
     | c :: rest => c.isAlpha && (clSuffixes rest).any fun b => b.all isWS
     | [] => false)

/-- `BYLINE_RE.match`, full-anchored by its `$`: optional whitespace, `by`,
whitespace, a letter, a nonempty run of name chars, an optional
`and <Name>` group, trailing whitespace. -/
def bylineMatch (l : List Char) : Bool :=
  match stripCI "by".data (l.dropWhile isWS) with
  | none => false
  | some r =>
    !(r.takeWhile isWS).isEmpty &&
    (match r.dropWhile isWS with
     | c :: rest =>
       c.isAlpha && (clSuffixes rest).any fun m => m.all isWS || bylineGroupTail m
     | [] => false)

/-- `ADDL_REPORTING_RE.match`: optional whitespace then the literal phrase,
closed by a word boundary. -/
def addlMatch (l : List Char) : Bool :=
  match stripCI "additional reporting by".data (l.dropWhile isWS) with
  | some r => (match r with | [] => true | c :: _ => !isWordChar c)
  | none => false

/-- `SEE_LEX_RE.match`: optional whitespace, `see`, whitespace, `lex`, word
boundary. -/
def seeLexMatch (l : List Char) : Bool :=
  match stripCI "see".data (l.dropWhile isWS) with
  | none => false
  | some r =>
    !(r.takeWhile isWS).isEmpty &&
    (match stripCI "lex".data (r.dropWhile isWS) with
     | some r2 => (match r2 with | [] => true | c :: _ => !isWordChar c)
     | none => false)

/-- The alternatives of `DAY_RE`. -/
def dayWords : List (List Char) :=
  ["monday".data, "tuesday".data, "wednesday".data, "thursday".data, "friday".data,
   "saturday".data, "sunday".data, "tomorrow".data, "today".data, "yesterday".data]

/-- `DAY_RE.match` with its `\s*$`: the text stripped of surrounding whitespace
is exactly one day word, case-insensitively. -/
def dayMatch (l : List Char) : Bool :=
  dayWords.any fun w => lowerL (trimRight (trimLeft l)) == w

/-- First char class `[A-Z0-9]` of `ALLCAPS_HEADER_RE`. -/
def isHeadStart (c : Char) : Bool := ('A' ≤ c && c ≤ 'Z') || c.isDigit

/-- Body class `[A-Z0-9 &/\-,'\.]` of `ALLCAPS_HEADER_RE`. -/
def isHeadCl (c : Char) : Bool :=
  isHeadStart c || c = ' ' || c = '&' || c = '/' || c = '-' || c = ',' || c = sq || c = '.'

/-- `ALLCAPS_HEADER_RE.match` (full, by its `$`): a head char then at least two
body chars. -/
def allcapsHeaderMatch (l : List Char) : Bool :=
  match l with
  | c :: rest => isHeadStart c && decide (2 ≤ rest.length) && rest.all isHeadCl
  | [] => false

/-- Python `t == t.upper()` on the ASCII range. -/
def upperFixed (l : List Char) : Bool := l.map asciiUpper == l

/-- `prune.is_digit_heavy`: at least 8 digits and a digit ratio above a
quarter (`digits / max(len, 1) > 0.25`, exact for these magnitudes). -/
def is_digit_heavy (l : List Char) : Bool :=
  let digits := (l.filter Char.isDigit).length
  decide (8 ≤ digits) && decide (max l.length 1 < 4 * digits)

/-- Python `str.split()` with no argument: whitespace-run splitting with no
empty fragments. -/
def pyWords (l : List Char) : List (List Char) :=
  (l.splitOnP isWS).filter fun w => !w.isEmpty

/-- The thresholds and toggle of `prune.looks_like_sentence`. -/
structure FilterCfg where
  min_tokens : Int
  min_chars : Int
  max_tokens : Int
  enable_digit_heavy : Bool

/-- The argparse defaults of `prune.py`. -/
def defaultCfg : FilterCfg := ⟨4, 12, 80, true⟩

/-- `prune.looks_like_sentence`: the ordered filter cascade, returning the
accept flag and the attributed reason. -/
def looks_like_sentence (cfg : FilterCfg) (text : List Char) : Bool × String :=
  let t := normTextL text
  if t.isEmpty then (false, "empty")
  else if (t.length : Int) < cfg.min_chars then (false, "too_short")
  else if urlSearch t || emailSearch t || ftSearch t then (false, "url_or_email")
  else if bylineMatch t || addlMatch t || seeLexMatch t || dayMatch t then (false, "boilerplate")
  else if allcapsHeaderMatch t && upperFixed t then (false, "allcaps_header")
  else if cfg.enable_digit_heavy && is_digit_heavy t then (false, "digit_heavy")
  else if ((pyWords t).length : Int) < cfg.min_tokens then (false, "too_short")
  else if cfg.max_tokens < ((pyWords t).length : Int) then (false, "too_long")
  else (true, "ok")

/-! ### prune.py: main pipeline (filter, dedupe, counters) -/

/-- `prune.find_text_col`: index of "text" in the header, column 2 as the
fallback (also for an empty header). -/
def find_text_col (header : List String) : Nat :=
  match header.indexOf? "text" with
  | some i => i
  | none => 2

/-- `out_row[text_col] = norm`. -/
def setText (row : List String) (i : Nat) (v : List Char) : List String :=
  row.set i (String.mk v)

/-- The dedupe key: the normalized text, lower-cased unless
`--dedupe-case-sensitive`. -/
def dedupeKey (cs : Bool) (norm : List Char) : List Char :=
  if cs then norm else lowerL norm

/-- The loop state of `prune.main`: the seen-key set, the emitted rows, and
the two kept counters. -/
structure RunAcc where
  seen : List (List Char)
  emitted : List (List String)
  keptF : Nat
  keptD : Nat

/-- One iteration of the row loop in `prune.main`. -/
def pruneStep (cfg : FilterCfg) (cs : Bool) (textCol : Nat) (acc : RunAcc)
    (row : List String) : RunAcc :=
  if row.isEmpty || row.length ≤ textCol then acc
  else
    let text := (row.getD textCol "").data
    if (looks_like_sentence cfg text).1 = false then acc
    else
      let norm := normTextL text
      let key := dedupeKey cs norm
      if key ∈ acc.seen then ⟨acc.seen, acc.emitted, acc.keptF + 1, acc.keptD⟩
      else ⟨key :: acc.seen, acc.emitted ++ [setText row textCol norm],
            acc.keptF + 1, acc.keptD + 1⟩

/-- The whole row loop of `prune.main` over the data rows. -/
def pruneData (cfg : FilterCfg) (cs : Bool) (textCol : Nat)
    (rows : List (List String)) : RunAcc :=
  rows.foldl (pruneStep cfg cs textCol) ⟨[], [], 0, 0⟩

/-- What one invocation of `prune.main` reports and writes: `output = none`
means the output file was never opened (the empty-input early return);
otherwise it holds the header row followed by the emitted rows. -/
structure PruneResult where
  output : Option (List (List String))
  totalInput : Nat
  keptFilter : Nat
  keptDedupe : Nat
  keptFrac : ℚ

/-- `prune.main` on an in-memory table. -/
def pruneRun (cfg : FilterCfg) (cs : Bool) (rows : List (List String)) : PruneResult :=
  match rows with
  | [] => ⟨none, 0, 0, 0, 0⟩
  | header :: dataRows =>
    let textCol := find_text_col header
    let acc := pruneData cfg cs textCol dataRows
    ⟨some (header :: acc.emitted), dataRows.length + 1, acc.keptF, acc.keptD,
      if 0 < dataRows.length then (acc.keptD : ℚ) / (dataRows.length : ℚ) else 0⟩

/-- The accepted candidate for one row: the output row paired with its dedupe
key, `none` when the row is skipped or rejected by the filter. -/
def candKey (cfg : FilterCfg) (cs : Bool) (textCol : Nat) (row : List String) :
    Option (List String × List Char) :=
  if row.isEmpty || row.length ≤ textCol then none
  else
    let text := (row.getD textCol "").data
    if (looks_like_sentence cfg text).1 = false then none
    else some (setText row textCol (normTextL text), dedupeKey cs (normTextL text))

/-- The rows that pass the filter cascade, in input order, each paired with
its dedupe key. -/
def acceptedKeyed (cfg : FilterCfg) (cs : Bool) (textCol : Nat)
    (rows : List (List String)) : List (List String × List Char) :=
  rows.filterMap (candKey cfg cs textCol)

/-- First-seen-wins key dedupe of a keyed row list, starting from a given
seen set. -/
def demit (seen : List (List Char)) : List (List String × List Char) → List (List String)
  | [] => []
  | (r, k) :: t => if k ∈ seen then demit seen t else r :: demit (k :: seen) t

/-- The seen set after running `demit`. -/
def dseen (seen : List (List Char)) : List (List String × List Char) → List (List Char)
  | [] => seen
  | (_, k) :: t => if k ∈ seen then dseen seen t else dseen (k :: seen) t

/-- The reason attributed to a row by the `reasons` counter of `prune.main`. -/
def reasonOf (cfg : FilterCfg) (textCol : Nat) (row : List String) : String :=
  if row.isEmpty || row.length ≤ textCol then "missing_text_col"
  else (looks_like_sentence cfg (row.getD textCol "").data).2

/-- The value of `reasons[s]` after the run. -/
def reasonsCount (cfg : FilterCfg) (textCol : Nat) (rows : List (List String))
    (s : String) : Nat :=
  (rows.filter fun row => reasonOf cfg textCol row == s).length

/-- The DedupeKey of a row, as the spec defines it: the normalized text at the
text column, optionally case-folded. -/
def rowKey (cs : Bool) (textCol : Nat) (r : List String) : List Char :=
  dedupeKey cs (normTextL (r.getD textCol "").data)

theorem isWS_fixQuote (c : Char) : isWS (fixQuote c) = isWS c := by
  unfold fixQuote
  split
  · next h =>
    rcases Bool.or_eq_true_iff.mp h with h1 | h1 <;>
      simp_all [sq, lsq, rsq, isWS]
  · split
    · next h =>
      rcases Bool.or_eq_true_iff.mp h with h1 | h1 <;>
        simp_all [dq, ldq, rdq, isWS]
    · rfl

theorem collapseWS_head (c : Char) (cs : List Char) :
    ∃ t, collapseWS (c :: cs) = (if isWS c then ' ' else c) :: t := by
  induction cs generalizing c with
  | nil =>
    refine ⟨[], ?_⟩
    unfold collapseWS
    split <;> simp_all
  | cons d ds ih =>
    by_cases hc : isWS c
    · by_cases hd : isWS d
      · obtain ⟨t, ht⟩ := ih d
        refine ⟨t, ?_⟩
        rw [collapseWS, if_pos hc, if_pos hd, ht, if_pos hd, if_pos hc]
      · refine ⟨collapseWS (d :: ds), ?_⟩
        rw [collapseWS, if_pos hc, if_neg hd, if_pos hc]
    · refine ⟨collapseWS (d :: ds), ?_⟩
      rw [collapseWS, if_neg hc, if_neg hc]

theorem wsCanon_cons {c : Char} {cs : List Char} :
    wsCanon (c :: cs) = (okPair c cs.head? && wsCanon cs) := rfl

theorem wsCanon_collapseWS (l : List Char) : wsCanon (collapseWS l) = true := by
  induction l with
  | nil => rfl
  | cons c cs ih =>
    cases cs with
    | nil =>
      unfold collapseWS
      split
      · decide
      · next hc => simp [wsCanon, okPair, hc]
    | cons d ds =>
      by_cases hc : isWS c
      · by_cases hd : isWS d
        · rw [collapseWS, if_pos hc, if_pos hd]; exact ih
        · obtain ⟨t, ht⟩ := collapseWS_head d ds
          rw [collapseWS, if_pos hc, if_neg hd, wsCanon_cons]
          refine Bool.and_eq_true_iff.mpr ⟨?_, ih⟩
          rw [ht, if_neg hd]
          simp [okPair, hd]
      · rw [collapseWS, if_neg hc, wsCanon_cons]
        refine Bool.and_eq_true_iff.mpr ⟨?_, ih⟩
        simp [okPair, hc]

theorem collapseWS_of_wsCanon {l : List Char} (h : wsCanon l = true) :
    collapseWS l = l := by
  induction l with
  | nil => rfl
  | cons c cs ih =>
    cases cs with
    | nil =>
      simp only [wsCanon, okPair, List.head?] at h
      unfold collapseWS
      split
      · next hc =>
        simp [hc] at h
        rw [h]
      · rfl
    | cons d ds =>
      rw [wsCanon_cons] at h
      obtain ⟨h1, h2⟩ := Bool.and_eq_true_iff.mp h
      simp only [List.head?] at h1
      by_cases hc : isWS c
      · simp only [okPair, hc] at h1
        obtain ⟨hsp, hd⟩ : c = ' ' ∧ isWS d = false := by simpa using h1
        rw [collapseWS, if_pos hc, if_neg (by simp [hd]), ih h2]
        subst hsp
        rfl
      · rw [collapseWS, if_neg hc, ih h2]

theorem okPair_none_of_some {c d : Char} (h : okPair c (some d) = true) :
    okPair c none = true := by
  simp only [okPair] at h ⊢
  rcases Bool.or_eq_true_iff.mp h with h1 | h1
  · exact Bool.or_eq_true_iff.mpr (Or.inl h1)
  · exact Bool.or_eq_true_iff.mpr
      (Or.inr (by simpa using (Bool.and_eq_true_iff.mp h1).1))

theorem wsCanon_tail {c : Char} {cs : List Char} (h : wsCanon (c :: cs) = true) :
    wsCanon cs = true :=
  (Bool.and_eq_true_iff.mp h).2

theorem wsCanon_trimLeft {l : List Char} (h : wsCanon l = true) :
    wsCanon (trimLeft l) = true := by
  induction l with
  | nil => exact h
  | cons c cs ih =>
    unfold trimLeft List.dropWhile
    split
    · exact ih (wsCanon_tail h)
    · exact h

theorem trimRight_shape (c : Char) (cs : List Char) :
    trimRight (c :: cs) = [] ∨ ∃ ds, trimRight (c :: cs) = c :: ds := by
  cases htr : trimRight cs with
  | nil =>
    rw [trimRight, htr]
    by_cases hc : isWS c
    · rw [if_pos hc]; exact Or.inl rfl
    · rw [if_neg hc]; exact Or.inr ⟨[], rfl⟩
  | cons d ds =>
    rw [trimRight, htr]
    exact Or.inr ⟨d :: ds, rfl⟩

theorem wsCanon_trimRight {l : List Char} (h : wsCanon l = true) :
    wsCanon (trimRight l) = true := by
  induction l with
  | nil => exact h
  | cons c cs ih =>
    obtain ⟨h1, h2⟩ := Bool.and_eq_true_iff.mp h
    cases htr : trimRight cs with
    | nil =>
      rw [trimRight, htr]
      by_cases hc : isWS c
      · rw [if_pos hc]; rfl
      · rw [if_neg hc, wsCanon]
        refine Bool.and_eq_true_iff.mpr ⟨?_, rfl⟩
        cases cs with
        | nil => simpa using h1
        | cons e es => exact okPair_none_of_some (by simpa using h1)
    | cons d ds =>
      rw [trimRight, htr, wsCanon_cons]
      refine Bool.and_eq_true_iff.mpr ⟨?_, ?_⟩
      · cases cs with
        | nil => simp [trimRight] at htr
        | cons e es =>
          rcases trimRight_shape e es with he | ⟨fs, he⟩
          · rw [he] at htr; exact absurd htr (by simp)
          · rw [he] at htr
            injection htr with hde htl
            subst hde
            simpa using h1
      · rw [← htr]
        exact ih h2

theorem noLeadWS_trimLeft (l : List Char) : noLeadWS (trimLeft l) = true := by
  induction l with
  | nil => rfl
  | cons c cs ih =>
    unfold trimLeft List.dropWhile
    split
    · exact ih
    · next hc => simpa [noLeadWS] using by simpa using hc

theorem noLeadWS_trimRight {l : List Char} (h : noLeadWS l = true) :
    noLeadWS (trimRight l) = true := by
  cases l with
  | nil => rfl
  | cons c cs =>
    rcases trimRight_shape c cs with hs | ⟨ds, hs⟩
    · rw [hs]; rfl
    · rw [hs]; exact h

theorem noTrailWS_trimRight (l : List Char) : noTrailWS (trimRight l) = true := by
  induction l with
  | nil => rfl
  | cons c cs ih =>
    cases htr : trimRight cs with
    | nil =>
      rw [trimRight, htr]
      by_cases hc : isWS c
      · rw [if_pos hc]; rfl
      · rw [if_neg hc]
        simpa [noTrailWS] using hc
    | cons d ds =>
      rw [trimRight, htr]
      rw [htr] at ih
      exact ih

theorem noLeadWS_collapseWS {l : List Char} (h : noLeadWS l = true) :
    noLeadWS (collapseWS l) = true := by
  cases l with
  | nil => rfl
  | cons c cs =>
    obtain ⟨t, ht⟩ := collapseWS_head c cs
    have hc : isWS c = false := by simpa [noLeadWS] using h
    rw [ht, if_neg (by simp [hc])]
    simpa [noLeadWS] using hc

theorem noTrailWS_collapseWS {l : List Char} (h : noTrailWS l = true) :
    noTrailWS (collapseWS l) = true := by
  induction l with
  | nil => rfl
  | cons c cs ih =>
    cases cs with
    | nil =>
      have hc : isWS c = false := by simpa [noTrailWS] using h
      unfold collapseWS
      rw [if_neg (by simp [hc])]
      simpa [noTrailWS] using hc
    | cons d ds =>
      have h2 : noTrailWS (d :: ds) = true := h
      by_cases hc : isWS c
      · by_cases hd : isWS d
        · rw [collapseWS, if_pos hc, if_pos hd]; exact ih h2
        · obtain ⟨t, ht⟩ := collapseWS_head d ds
          rw [collapseWS, if_pos hc, if_neg hd, ht, if_neg hd]
          have := ih h2
          rw [ht, if_neg hd] at this
          exact this
      · obtain ⟨t, ht⟩ := collapseWS_head d ds
        rw [collapseWS, if_neg hc, ht]
        have := ih h2
        rw [ht] at this
        exact this

theorem trimLeft_of_noLeadWS {l : List Char} (h : noLeadWS l = true) :
    trimLeft l = l := by
  cases l with
  | nil => rfl
  | cons c cs =>
    have hc : isWS c = false := by simpa [noLeadWS] using h
    unfold trimLeft List.dropWhile
    rw [hc]

theorem trimRight_of_noTrailWS {l : List Char} (h : noTrailWS l = true) :
    trimRight l = l := by
  induction l with
  | nil => rfl
  | cons c cs ih =>
    cases cs with
    | nil =>
      have hc : isWS c = false := by simpa [noTrailWS] using h
      simp [trimRight, hc]
    | cons d ds =>
      have h2 : noTrailWS (d :: ds) = true := h
      rw [trimRight, ih h2]

theorem noLeadWS_map_fixQuote {l : List Char} (h : noLeadWS l = true) :
    noLeadWS (l.map fixQuote) = true := by
  cases l with
  | nil => rfl
  | cons c cs =>
    simp only [List.map_cons, noLeadWS, isWS_fixQuote] at *
    exact h

theorem noTrailWS_map_fixQuote {l : List Char} (h : noTrailWS l = true) :
    noTrailWS (l.map fixQuote) = true := by
  induction l with
  | nil => rfl
  | cons c cs ih =>
    cases cs with
    | nil =>
      simp only [List.map_cons, List.map_nil, noTrailWS, isWS_fixQuote] at *
      exact h
    | cons d ds => exact ih h

theorem wsCanon_map_fixQuote {l : List Char} (h : wsCanon l = true) :
    wsCanon (l.map fixQuote) = true := by
  induction l with
  | nil => rfl
  | cons c cs ih =>
    obtain ⟨h1, h2⟩ := Bool.and_eq_true_iff.mp h
    rw [List.map_cons, wsCanon_cons]
    refine Bool.and_eq_true_iff.mpr ⟨?_, ih h2⟩
    by_cases hc : isWS c
    · have hsp : c = ' ' := by
        cases cs with
        | nil => simpa [okPair, hc] using h1
        | cons d ds =>
          have h3 : c = ' ' ∧ isWS d = false := by simpa [okPair, hc] using h1
          exact h3.1
      subst hsp
      cases cs with
      | nil => decide
      | cons d ds =>
        have hd : isWS d = false := by
          have h3 : (' ' : Char) = ' ' ∧ isWS d = false := by simpa [okPair, hc] using h1
          exact h3.2
        have hq : fixQuote ' ' = ' ' := by decide
        rw [hq]
        simp [okPair, List.head?, isWS_fixQuote, hd]
    · simp [okPair, isWS_fixQuote, hc]

theorem mem_trimLeft {c : Char} {l : List Char} (h : c ∈ trimLeft l) : c ∈ l := by
  induction l with
  | nil => exact h
  | cons a as ih =>
    unfold trimLeft List.dropWhile at h
    revert h
    split
    · intro h
      exact List.mem_cons_of_mem a (ih h)
    · intro h
      exact h

theorem mem_trimRight {c : Char} {l : List Char} (h : c ∈ trimRight l) : c ∈ l := by
  induction l with
  | nil => exact h
  | cons a as ih =>
    rw [trimRight] at h
    revert h
    cases htr : trimRight as with
    | nil =>
      by_cases ha : isWS a
      · rw [if_pos ha]
        intro h
        exact absurd h (List.not_mem_nil c)
      · rw [if_neg ha]
        intro h
        rcases List.mem_singleton.mp h with h
        exact h ▸ List.mem_cons_self a as
    | cons d ds =>
      intro h
      rcases List.mem_cons.mp h with h | h
      · exact h ▸ List.mem_cons_self a as
      · exact List.mem_cons_of_mem a (ih (htr ▸ h))

theorem mem_collapseWS {c : Char} {l : List Char} (h : c ∈ collapseWS l) :
    c = ' ' ∨ c ∈ l := by
  induction l with
  | nil => exact absurd h (List.not_mem_nil c)
  | cons a as ih =>
    cases as with
    | nil =>
      revert h
      unfold collapseWS
      by_cases ha : isWS a
      · rw [if_pos ha]
        intro h
        exact Or.inl (List.mem_singleton.mp h)
      · rw [if_neg ha]
        intro h
        exact Or.inr (List.mem_singleton.mp h ▸ List.mem_cons_self a [])
    | cons d ds =>
      by_cases ha : isWS a
      · by_cases hd : isWS d
        · rw [collapseWS, if_pos ha, if_pos hd] at h
          rcases ih h with h1 | h1
          · exact Or.inl h1
          · exact Or.inr (List.mem_cons_of_mem a h1)
        · rw [collapseWS, if_pos ha, if_neg hd] at h
          rcases List.mem_cons.mp h with h1 | h1
          · exact Or.inl h1
          · rcases ih h1 with h2 | h2
            · exact Or.inl h2
            · exact Or.inr (List.mem_cons_of_mem a h2)
      · rw [collapseWS, if_neg ha] at h
        rcases List.mem_cons.mp h with h1 | h1
        · exact Or.inr (h1 ▸ List.mem_cons_self a (d :: ds))
        · rcases ih h1 with h2 | h2
          · exact Or.inl h2
          · exact Or.inr (List.mem_cons_of_mem a h2)

theorem noCurly_of_subset {l1 l2 : List Char}
    (hsub : ∀ c, c ∈ l2 → c = ' ' ∨ c ∈ l1) (h : noCurly l1 = true) :
    noCurly l2 = true := by
  rw [noCurly, List.all_eq_true] at h ⊢
  intro c hc
  rcases hsub c hc with h1 | h1
  · subst h1
    decide
  · exact h c h1

theorem noCurly_map_fixQuote (l : List Char) : noCurly (l.map fixQuote) = true := by
  rw [noCurly, List.all_eq_true]
  intro c hc
  obtain ⟨a, _, ha⟩ := List.mem_map.mp hc
  subst ha
  unfold fixQuote
  split
  · decide
  · split
    · decide
    · next h1 h2 =>
      have h1' : ¬a = lsq ∧ ¬a = rsq := by simpa using h1
      have h2' : ¬a = ldq ∧ ¬a = rdq := by simpa using h2
      simpa using ⟨⟨h1', h2'.1⟩, h2'.2⟩

theorem map_fixQuote_of_noCurly {l : List Char} (h : noCurly l = true) :
    l.map fixQuote = l := by
  induction l with
  | nil => rfl
  | cons c cs ih =>
    rw [noCurly, List.all_cons, Bool.and_eq_true_iff] at h
    obtain ⟨h1, h2⟩ := h
    rw [List.map_cons, ih (by simpa [noCurly] using h2)]
    have hfix : fixQuote c = c := by
      unfold fixQuote
      rw [if_neg, if_neg]
      · intro hcon
        rcases Bool.or_eq_true_iff.mp hcon with hx | hx <;> simp_all
      · intro hcon
        rcases Bool.or_eq_true_iff.mp hcon with hx | hx <;> simp_all
    rw [hfix]

theorem normTextL_canon (l : List Char) :
    wsCanon (normTextL l) = true ∧ noLeadWS (normTextL l) = true ∧
    noTrailWS (normTextL l) = true ∧ noCurly (normTextL l) = true := by
  refine ⟨wsCanon_collapseWS _, ?_, ?_, ?_⟩
  · exact noLeadWS_collapseWS
      (noLeadWS_map_fixQuote (noLeadWS_trimRight (noLeadWS_trimLeft l)))
  · exact noTrailWS_collapseWS (noTrailWS_map_fixQuote (noTrailWS_trimRight (trimLeft l)))
  · exact noCurly_of_subset (fun c hc => mem_collapseWS hc) (noCurly_map_fixQuote _)

theorem normTextL_fix {l : List Char}
    (hw : wsCanon l = true) (hl : noLeadWS l = true)
    (ht : noTrailWS l = true) (hc : noCurly l = true) :
    normTextL l = l := by
  unfold normTextL trim
  rw [trimLeft_of_noLeadWS hl, trimRight_of_noTrailWS ht, map_fixQuote_of_noCurly hc,
    collapseWS_of_wsCanon hw]

theorem normTextL_idem (l : List Char) : normTextL (normTextL l) = normTextL l := by
  obtain ⟨hw, hl, ht, hc⟩ := normTextL_canon l
  exact normTextL_fix hw hl ht hc

theorem normWSL_canon (l : List Char) :
    wsCanon (normWSL l) = true ∧ noLeadWS (normWSL l) = true ∧
    noTrailWS (normWSL l) = true := by
  refine ⟨?_, ?_, noTrailWS_trimRight _⟩
  · exact wsCanon_trimRight (wsCanon_trimLeft (wsCanon_collapseWS l))
  · exact noLeadWS_trimRight (noLeadWS_trimLeft (collapseWS l))

theorem normWSL_fix {l : List Char}
    (hw : wsCanon l = true) (hl : noLeadWS l = true) (ht : noTrailWS l = true) :
    normWSL l = l := by
  unfold normWSL
  rw [collapseWS_of_wsCanon hw, trimLeft_of_noLeadWS hl, trimRight_of_noTrailWS ht]

theorem normWSL_idem (l : List Char) : normWSL (normWSL l) = normWSL l := by
  obtain ⟨hw, hl, ht⟩ := normWSL_canon l
  exact normWSL_fix hw hl ht

theorem split_fragment_props {text : List Char} {min_len max_chars : Int} {es : Bool}
    {f : List Char} (h : f ∈ split_sentence_like text min_len max_chars es) :
    normWSL f = f ∧ min_len ≤ (f.length : Int) ∧ (f.length : Int) ≤ max_chars := by
  unfold split_sentence_like at h
  cases es with
  | false =>
    rw [show (!false) = true from rfl] at h
    rw [if_pos rfl] at h
    dsimp only at h
    revert h
    split
    · next hg =>
      intro h
      have hf : f = normWSL text := List.mem_singleton.mp h
      subst hf
      obtain ⟨h1, h2⟩ := Bool.and_eq_true_iff.mp hg
      exact ⟨normWSL_idem text, of_decide_eq_true h1, of_decide_eq_true h2⟩
    · intro h
      exact absurd h (List.not_mem_nil f)
  | true =>
    rw [show (!true) = false from rfl] at h
    rw [if_neg (by simp)] at h
    dsimp only at h
    obtain ⟨p, hp, hf⟩ := List.mem_flatMap.mp h
    revert hf
    split
    · intro hf
      exact absurd hf (List.not_mem_nil f)
    · next hmin =>
      split
      · next hmax =>
        intro hf
        obtain ⟨hmem, hbound⟩ := List.mem_filter.mp hf
        obtain ⟨x, hx, hxf⟩ := List.mem_map.mp hmem
        obtain ⟨h1, h2⟩ := Bool.and_eq_true_iff.mp hbound
        subst hxf
        exact ⟨normWSL_idem x, of_decide_eq_true h1, of_decide_eq_true h2⟩
      · next hmax =>
        intro hf
        have hf2 : f = normWSL p := List.mem_singleton.mp hf
        subst hf2
        refine ⟨normWSL_idem p, ?_, ?_⟩
        · omega
        · omega

theorem mem_hitTypesSorted {s0 s1 : Int} {spans : List (String × Int × Int)} {ty : String} :
    ty ∈ hitTypesSorted s0 s1 spans ↔
      ∃ sp ∈ spans, sp.1 = ty ∧ overlaps s0 s1 sp.2.1 sp.2.2 = true := by
  rw [hitTypesSorted, (List.perm_insertionSort _ _).mem_iff, List.mem_dedup, List.mem_map]
  constructor
  · rintro ⟨sp, hsp, hty⟩
    obtain ⟨hmem, hov⟩ := List.mem_filter.mp hsp
    exact ⟨sp, hmem, hty, hov⟩
  · rintro ⟨sp, hmem, hty, hov⟩
    exact ⟨sp, List.mem_filter.mpr ⟨hmem, hov⟩, hty⟩

theorem hitTypesSorted_sorted (s0 s1 : Int) (spans : List (String × Int × Int)) :
    (hitTypesSorted s0 s1 spans).Sorted (fun a b : String => a ≤ b) :=
  List.sorted_insertionSort _ _

theorem hitTypesSorted_nodup (s0 s1 : Int) (spans : List (String × Int × Int)) :
    (hitTypesSorted s0 s1 spans).Nodup :=
  (List.perm_insertionSort _ _).nodup_iff.mpr (List.nodup_dedup _)

theorem hitTypesSorted_eq_nil_iff {s0 s1 : Int} {spans : List (String × Int × Int)} :
    hitTypesSorted s0 s1 spans = [] ↔
      ¬ ∃ sp ∈ spans, overlaps s0 s1 sp.2.1 sp.2.2 = true := by
  rw [List.eq_nil_iff_forall_not_mem]
  constructor
  · rintro hall ⟨sp, hmem, hov⟩
    exact hall sp.1 (mem_hitTypesSorted.mpr ⟨sp, hmem, rfl, hov⟩)
  · intro hno ty hty
    obtain ⟨sp, hmem, _, hov⟩ := mem_hitTypesSorted.mp hty
    exact hno ⟨sp, hmem, hov⟩

theorem pruneStep_eq (cfg : FilterCfg) (cs : Bool) (textCol : Nat) (acc : RunAcc)
    (row : List String) :
    pruneStep cfg cs textCol acc row =
      match candKey cfg cs textCol row with
      | none => acc
      | some rk =>
        if rk.2 ∈ acc.seen then ⟨acc.seen, acc.emitted, acc.keptF + 1, acc.keptD⟩
        else ⟨rk.2 :: acc.seen, acc.emitted ++ [rk.1], acc.keptF + 1, acc.keptD + 1⟩ := by
  unfold pruneStep candKey
  by_cases h1 : (row.isEmpty || decide (row.length ≤ textCol)) = true
  · rw [if_pos h1, if_pos h1]
  · rw [if_neg h1, if_neg h1]
    dsimp only
    by_cases h2 : (looks_like_sentence cfg (row.getD textCol "").data).1 = false
    · rw [if_pos h2, if_pos h2]
    · rw [if_neg h2, if_neg h2]

theorem acceptedKeyed_cons (cfg : FilterCfg) (cs : Bool) (textCol : Nat)
    (row : List String) (rows : List (List String)) :
    acceptedKeyed cfg cs textCol (row :: rows) =
      match candKey cfg cs textCol row with
      | none => acceptedKeyed cfg cs textCol rows
      | some rk => rk :: acceptedKeyed cfg cs textCol rows := by
  rw [acceptedKeyed, List.filterMap_cons]
  cases candKey cfg cs textCol row <;> rfl

theorem pruneData_fold (cfg : FilterCfg) (cs : Bool) (textCol : Nat) :
    ∀ (rows : List (List String)) (acc : RunAcc),
    List.foldl (pruneStep cfg cs textCol) acc rows =
      ⟨dseen acc.seen (acceptedKeyed cfg cs textCol rows),
       acc.emitted ++ demit acc.seen (acceptedKeyed cfg cs textCol rows),
       acc.keptF + (acceptedKeyed cfg cs textCol rows).length,
       acc.keptD + (demit acc.seen (acceptedKeyed cfg cs textCol rows)).length⟩ := by
  intro rows
  induction rows with
  | nil =>
    intro acc
    simp only [List.foldl_nil, acceptedKeyed, List.filterMap_nil, demit, dseen,
      List.append_nil, List.length_nil, Nat.add_zero]
  | cons row rest ih =>
    intro acc
    rw [List.foldl_cons, pruneStep_eq, acceptedKeyed_cons]
    cases hck : candKey cfg cs textCol row with
    | none => exact ih acc
    | some rk =>
      obtain ⟨r, k⟩ := rk
      dsimp only
      by_cases hk : k ∈ acc.seen
      · rw [if_pos hk, ih ⟨acc.seen, acc.emitted, acc.keptF + 1, acc.keptD⟩]
        simp only [demit, dseen, if_pos hk, List.length_cons]
        congr 1
        omega
      · rw [if_neg hk, ih ⟨k :: acc.seen, acc.emitted ++ [r], acc.keptF + 1, acc.keptD + 1⟩]
        simp only [demit, dseen, if_neg hk, List.length_cons, List.append_assoc,
          List.singleton_append]
        congr 1 <;> omega

theorem mem_acceptedKeyed {cfg : FilterCfg} {cs : Bool} {textCol : Nat}
    {rows : List (List String)} {rk : List String × List Char}
    (h : rk ∈ acceptedKeyed cfg cs textCol rows) :
    ∃ row ∈ rows,
      (row.isEmpty || decide (row.length ≤ textCol)) = false ∧
      (looks_like_sentence cfg (row.getD textCol "").data).1 = true ∧
      rk.1 = setText row textCol (normTextL (row.getD textCol "").data) ∧
      rk.2 = dedupeKey cs (normTextL (row.getD textCol "").data) := by
  obtain ⟨row, hrow, hck⟩ := List.mem_filterMap.mp h
  refine ⟨row, hrow, ?_⟩
  unfold candKey at hck
  revert hck
  split
  · intro hck
    exact absurd hck (by simp)
  · next h1 =>
    dsimp only
    split
    · intro hck
      exact absurd hck (by simp)
    · next h2 =>
      intro hck
      have := Option.some.injEq _ _ ▸ hck
      obtain ⟨ha, hb⟩ := Prod.mk.injEq _ _ _ _ ▸ (Option.some.inj hck)
      exact ⟨Bool.not_eq_true _ ▸ (by simpa using h1), by simpa using h2, ha.symm, hb.symm⟩

theorem rowKey_acceptedKeyed {cfg : FilterCfg} {cs : Bool} {textCol : Nat}
    {rows : List (List String)} {rk : List String × List Char}
    (h : rk ∈ acceptedKeyed cfg cs textCol rows) :
    rowKey cs textCol rk.1 = rk.2 := by
  obtain ⟨row, _, hvalid, _, ha, hb⟩ := mem_acceptedKeyed h
  have hlen : textCol < row.length := by
    rcases Bool.or_eq_false_iff.mp hvalid with ⟨_, h2⟩
    simpa using of_decide_eq_false h2
  rw [rowKey, ha, setText]
  rw [List.getD_eq_getElem?_getD, List.getElem?_set_self (by simpa using hlen)]
  simp only [Option.getD_some, String.data]
  rw [normTextL_idem, hb]

theorem demit_filter (F : List String → List Char) :
    ∀ (l : List (List String × List Char)) (seen : List (List Char)) (k : List Char),
    (∀ rk ∈ l, F rk.1 = rk.2) →
    (demit seen l).filter (fun r => F r == k) =
      (if k ∈ seen then []
       else ((l.filter fun rk => rk.2 == k).map Prod.fst).take 1) := by
  intro l
  induction l with
  | nil =>
    intro seen k _
    simp [demit]
  | cons rk t ih =>
    intro seen k hco
    obtain ⟨r, k2⟩ := rk
    have hcoh : F r = k2 := hco (r, k2) (List.mem_cons_self _ _)
    have hcot : ∀ x ∈ t, F x.1 = x.2 := fun x hx => hco x (List.mem_cons_of_mem _ hx)
    rw [demit]
    by_cases hk2 : k2 ∈ seen
    · rw [if_pos hk2, ih seen k hcot]
      by_cases hks : k ∈ seen
      · rw [if_pos hks, if_pos hks]
      · rw [if_neg hks, if_neg hks]
        have hne : ¬ ((((r, k2).2 : List Char) == k) = true) := by
          simp only [beq_iff_eq]
          intro hc
          exact hks (hc ▸ hk2)
        rw [List.filter_cons, if_neg hne]
    · rw [if_neg hk2]
      by_cases hkk : k2 = k
      · subst hkk
        rw [List.filter_cons, if_pos (by simp [hcoh])]
        rw [ih (k2 :: seen) k2 hcot, if_pos (List.mem_cons_self _ _), if_neg hk2]
        rw [List.filter_cons, if_pos (by simp)]
        simp
      · have hmemiff : (k ∈ k2 :: seen) ↔ (k ∈ seen) := by
          constructor
          · intro h
            rcases List.mem_cons.mp h with h | h
            · exact absurd h.symm hkk
            · exact h
          · exact List.mem_cons_of_mem _
        have hcondL : ¬ ((F r == k) = true) := by
          simp only [beq_iff_eq, hcoh]
          exact hkk
        have hcondR : ¬ ((((r, k2).2 : List Char) == k) = true) := by
          simp only [beq_iff_eq]
          exact hkk
        rw [List.filter_cons, if_neg hcondL]
        rw [List.filter_cons, if_neg hcondR]
        rw [ih (k2 :: seen) k hcot]
        by_cases hks : k ∈ seen
        · rw [if_pos (hmemiff.mpr hks), if_pos hks]
        · rw [if_neg (fun hc => hks (hmemiff.mp hc)), if_neg hks]

theorem demit_nodup (F : List String → List Char) :
    ∀ (l : List (List String × List Char)) (seen : List (List Char)),
    (∀ rk ∈ l, F rk.1 = rk.2) →
    ((demit seen l).map F).Nodup ∧ ∀ k ∈ seen, k ∉ (demit seen l).map F := by
  intro l
  induction l with
  | nil =>
    intro seen _
    exact ⟨List.nodup_nil, fun k _ => List.not_mem_nil k⟩
  | cons rk t ih =>
    intro seen hco
    obtain ⟨r, k2⟩ := rk
    have hcoh : F r = k2 := hco (r, k2) (List.mem_cons_self _ _)
    have hcot : ∀ x ∈ t, F x.1 = x.2 := fun x hx => hco x (List.mem_cons_of_mem _ hx)
    rw [demit]
    by_cases hk2 : k2 ∈ seen
    · rw [if_pos hk2]
      exact ih seen hcot
    · rw [if_neg hk2]
      obtain ⟨hnd, hnot⟩ := ih (k2 :: seen) hcot
      rw [List.map_cons, hcoh]
      refine ⟨List.nodup_cons.mpr ⟨hnot k2 (List.mem_cons_self _ _), hnd⟩, ?_⟩
      intro k hks
      rw [List.mem_cons]
      rintro (h | h)
      · exact hk2 (h ▸ hks)
      · exact hnot k (List.mem_cons_of_mem _ hks) h

theorem mem_demit {r : List String} :
    ∀ {l : List (List String × List Char)} {seen : List (List Char)},
    r ∈ demit seen l → ∃ k, (r, k) ∈ l := by
  intro l
  induction l with
  | nil =>
    intro seen h
    exact absurd h (List.not_mem_nil r)
  | cons rk t ih =>
    intro seen h
    obtain ⟨r2, k2⟩ := rk
    rw [demit] at h
    by_cases hk2 : k2 ∈ seen
    · rw [if_pos hk2] at h
      obtain ⟨k, hk⟩ := ih h
      exact ⟨k, List.mem_cons_of_mem _ hk⟩
    · rw [if_neg hk2] at h
      rcases List.mem_cons.mp h with h | h
      · exact ⟨k2, h ▸ List.mem_cons_self _ _⟩
      · obtain ⟨k, hk⟩ := ih h
        exact ⟨k, List.mem_cons_of_mem _ hk⟩

theorem looks_norm (cfg : FilterCfg) (text : List Char) :
    looks_like_sentence cfg (normTextL text) = looks_like_sentence cfg text := by
  unfold looks_like_sentence
  rw [normTextL_idem]

theorem looks_ok_reason {cfg : FilterCfg} {t : List Char}
    (h : (looks_like_sentence cfg t).1 = true) :
    looks_like_sentence cfg t = (true, "ok") := by
  unfold looks_like_sentence at h ⊢
  dsimp only at h ⊢
  split_ifs at h ⊢
  all_goals simp_all

theorem emitted_stable (cfg : FilterCfg) (cs : Bool) (textCol : Nat)
    (rows : List (List String)) :
    ∀ r ∈ (pruneData cfg cs textCol rows).emitted,
      textCol < r.length ∧
      looks_like_sentence cfg (r.getD textCol "").data = (true, "ok") ∧
      normTextL (r.getD textCol "").data = (r.getD textCol "").data ∧
      setText r textCol (normTextL (r.getD textCol "").data) = r := by
  intro r hr
  rw [pruneData, pruneData_fold] at hr
  simp only [List.nil_append] at hr
  obtain ⟨k, hk⟩ := mem_demit hr
  obtain ⟨row, _, hvalid, hok, ha, _⟩ := mem_acceptedKeyed hk
  have hlen : textCol < row.length := by
    rcases Bool.or_eq_false_iff.mp hvalid with ⟨_, h2⟩
    simpa using of_decide_eq_false h2
  simp only at ha
  have hgetD : (r.getD textCol "") = String.mk (normTextL (row.getD textCol "").data) := by
    rw [ha, setText, List.getD_eq_getElem?_getD,
      List.getElem?_set_self (by simpa using hlen)]
    rfl
  have hdata : (r.getD textCol "").data = normTextL (row.getD textCol "").data := by
    rw [hgetD]
  refine ⟨?_, ?_, ?_, ?_⟩
  · rw [ha, setText, List.length_set]
    exact hlen
  · rw [hdata, looks_norm]
    exact looks_ok_reason hok
  · rw [hdata, normTextL_idem]
  · rw [hdata, normTextL_idem, ha]
    simp only [setText]
    rw [List.set_set]

theorem foldl_stable (cfg : FilterCfg) (cs : Bool) (textCol : Nat) :
    ∀ (l : List (List String)) (acc : RunAcc),
    (∀ r ∈ l, textCol < r.length ∧
       looks_like_sentence cfg (r.getD textCol "").data = (true, "ok") ∧
       normTextL (r.getD textCol "").data = (r.getD textCol "").data ∧
       setText r textCol (normTextL (r.getD textCol "").data) = r) →
    ((l.map (rowKey cs textCol)).Nodup) →
    (∀ r ∈ l, rowKey cs textCol r ∉ acc.seen) →
    (List.foldl (pruneStep cfg cs textCol) acc l).emitted = acc.emitted ++ l ∧
    (List.foldl (pruneStep cfg cs textCol) acc l).keptF = acc.keptF + l.length ∧
    (List.foldl (pruneStep cfg cs textCol) acc l).keptD = acc.keptD + l.length := by
  intro l
  induction l with
  | nil =>
    intro acc _ _ _
    simp
  | cons r rest ih =>
    intro acc hst hnd hseen
    obtain ⟨hlen, hok, hfix, hset⟩ := hst r (List.mem_cons_self _ _)
    have hcond : (r.isEmpty || decide (r.length ≤ textCol)) = false := by
      cases r with
      | nil => simp at hlen
      | cons a as =>
        simp only [List.isEmpty_cons, Bool.false_or, decide_eq_false_iff_not]
        omega
    have hkey : dedupeKey cs (normTextL (r.getD textCol "").data) = rowKey cs textCol r := rfl
    have hstep : pruneStep cfg cs textCol acc r =
        ⟨rowKey cs textCol r :: acc.seen, acc.emitted ++ [r], acc.keptF + 1, acc.keptD + 1⟩ := by
      rw [pruneStep]
      rw [if_neg (by simp [hcond])]
      dsimp only
      rw [if_neg (by rw [hok]; simp)]
      rw [hkey, if_neg (hseen r (List.mem_cons_self _ _)), hset]
    rw [List.foldl_cons, hstep]
    have hndr : ((rest.map (rowKey cs textCol))).Nodup := (List.nodup_cons.mp (by simpa using hnd)).2
    have hnotin : rowKey cs textCol r ∉ rest.map (rowKey cs textCol) :=
      (List.nodup_cons.mp (by simpa using hnd)).1
    have hseen2 : ∀ x ∈ rest, rowKey cs textCol x ∉
        (⟨rowKey cs textCol r :: acc.seen, acc.emitted ++ [r], acc.keptF + 1,
          acc.keptD + 1⟩ : RunAcc).seen := by
      intro x hx
      simp only [List.mem_cons]
      rintro (hc | hc)
      · exact hnotin (hc ▸ List.mem_map_of_mem (rowKey cs textCol) hx)
      · exact hseen x (List.mem_cons_of_mem _ hx) hc
    obtain ⟨he, hf, hd⟩ := ih ⟨rowKey cs textCol r :: acc.seen, acc.emitted ++ [r],
        acc.keptF + 1, acc.keptD + 1⟩
      (fun x hx => hst x (List.mem_cons_of_mem _ hx)) hndr hseen2
    refine ⟨?_, ?_, ?_⟩
    · rw [he]
      simp
    · rw [hf]
      simp only [List.length_cons]
      omega
    · rw [hd]
      simp only [List.length_cons]
      omega

/-! ### Claims -/

/-- C1: for every sentence span and entity-span list, every emitted row's
label is 1 iff at least one entity span overlaps the original (unsplit)
sentence span; the types string is the `|`-join of the sorted duplicate-free
list of overlapping event types (empty when none overlaps); and every
sub-unit produced by splitting the sentence is emitted with exactly that same
label and types string. -/
theorem claim_c1 (s0 s1 : Int) (spans : List (String × Int × Int))
    (min_len max_chars : Int) (es : Bool) (text : List Char)
    (r : String × Nat × String)
    (hr : r ∈ processSentence s0 s1 spans min_len max_chars es text) :
    (r.2.1 = 1 ↔ ∃ sp ∈ spans, overlaps s0 s1 sp.2.1 sp.2.2 = true) ∧
    r.2.2 = String.intercalate "|" (hitTypesSorted s0 s1 spans) ∧
    ((¬ ∃ sp ∈ spans, overlaps s0 s1 sp.2.1 sp.2.2 = true) → r.2.2 = "") ∧
    (hitTypesSorted s0 s1 spans).Sorted (fun a b => a ≤ b) ∧
    (hitTypesSorted s0 s1 spans).Nodup ∧
    (∀ ty, ty ∈ hitTypesSorted s0 s1 spans ↔
      ∃ sp ∈ spans, sp.1 = ty ∧ overlaps s0 s1 sp.2.1 sp.2.2 = true) ∧
    (∀ r2 ∈ processSentence s0 s1 spans min_len max_chars es text,
      r2.2.1 = r.2.1 ∧ r2.2.2 = r.2.2) := by
  unfold processSentence at hr
  dsimp only at hr
  obtain ⟨piece, hpiece, hrx⟩ := List.mem_map.mp hr
  subst hrx
  refine ⟨?_, rfl, ?_, hitTypesSorted_sorted s0 s1 spans, hitTypesSorted_nodup s0 s1 spans,
    fun ty => mem_hitTypesSorted, ?_⟩
  · dsimp only
    by_cases hnil : hitTypesSorted s0 s1 spans = []
    · rw [hnil]
      simp only [List.isEmpty_nil, if_pos rfl]
      constructor
      · intro hc
        exact absurd hc (by decide)
      · intro hc
        exact absurd hc (hitTypesSorted_eq_nil_iff.mp hnil)
    · rw [if_neg (by simpa [List.isEmpty_iff] using hnil)]
      constructor
      · intro _
        by_contra hno
        exact hnil (hitTypesSorted_eq_nil_iff.mpr hno)
      · intro _
        rfl
  · intro hno
    dsimp only
    rw [hitTypesSorted_eq_nil_iff.mpr hno]
    rfl
  · intro r2 hr2
    unfold processSentence at hr2
    dsimp only at hr2
    obtain ⟨piece2, _, hrx2⟩ := List.mem_map.mp hr2
    subst hrx2
    exact ⟨rfl, rfl⟩

/-- C1 witness: a concrete sentence span, one overlapping Profit span, and a
single split piece; the label is 1 and the types string is "Profit". -/
theorem claim_c1_witness :
    ((("Profits rose sharply.", 1, "Profit") : String × Nat × String) ∈
      processSentence 0 21 [("Profit", 0, 20)] 5 500 false "Profits rose sharply.".data) ∧
    (((("Profits rose sharply.", 1, "Profit") : String × Nat × String).2.1 = 1 ↔
        ∃ sp ∈ [(("Profit" : String), (0 : Int), (20 : Int))],
          overlaps 0 21 sp.2.1 sp.2.2 = true) ∧
      (("Profits rose sharply.", 1, "Profit") : String × Nat × String).2.2 =
        String.intercalate "|" (hitTypesSorted 0 21 [("Profit", 0, 20)]) ∧
      ((¬ ∃ sp ∈ [(("Profit" : String), (0 : Int), (20 : Int))],
          overlaps 0 21 sp.2.1 sp.2.2 = true) →
        (("Profits rose sharply.", 1, "Profit") : String × Nat × String).2.2 = "") ∧
      (hitTypesSorted 0 21 [("Profit", 0, 20)]).Sorted (fun a b => a ≤ b) ∧
      (hitTypesSorted 0 21 [("Profit", 0, 20)]).Nodup ∧
      (∀ ty, ty ∈ hitTypesSorted 0 21 [("Profit", 0, 20)] ↔
        ∃ sp ∈ [(("Profit" : String), (0 : Int), (20 : Int))],
          sp.1 = ty ∧ overlaps 0 21 sp.2.1 sp.2.2 = true) ∧
      (∀ r2 ∈ processSentence 0 21 [("Profit", 0, 20)] 5 500 false
          "Profits rose sharply.".data,
        r2.2.1 = (("Profits rose sharply.", 1, "Profit") : String × Nat × String).2.1 ∧
        r2.2.2 = (("Profits rose sharply.", 1, "Profit") : String × Nat × String).2.2)) :=
  ⟨by decide,
   claim_c1 0 21 [("Profit", 0, 20)] 5 500 false "Profits rose sharply.".data
     ("Profits rose sharply.", 1, "Profit") (by decide)⟩

/-- C3: for every input, either case-sensitivity mode and any text column,
the emitted data rows of the cleaning stage have pairwise distinct dedupe
keys; for each key, the emitted rows with that key are exactly the first
filter-accepted row with that key (first-seen wins); and every emitted row is
one of the accepted rows. -/
theorem claim_c3 (cfg : FilterCfg) (cs : Bool) (textCol : Nat)
    (rows : List (List String)) :
    ((pruneData cfg cs textCol rows).emitted.map (rowKey cs textCol)).Nodup ∧
    (∀ k, (pruneData cfg cs textCol rows).emitted.filter
        (fun r => rowKey cs textCol r == k) =
      (((acceptedKeyed cfg cs textCol rows).filter fun rk => rk.2 == k).map
        Prod.fst).take 1) ∧
    (∀ r ∈ (pruneData cfg cs textCol rows).emitted,
      ∃ k, (r, k) ∈ acceptedKeyed cfg cs textCol rows) := by
  rw [pruneData, pruneData_fold]
  dsimp only
  simp only [List.nil_append]
  have hco : ∀ rk ∈ acceptedKeyed cfg cs textCol rows, rowKey cs textCol rk.1 = rk.2 :=
    fun rk hrk => rowKey_acceptedKeyed hrk
  refine ⟨(demit_nodup (rowKey cs textCol) _ [] hco).1, ?_, ?_⟩
  · intro k
    rw [demit_filter (rowKey cs textCol) _ [] k hco]
    rw [if_neg (List.not_mem_nil k)]
  · intro r hr
    exact mem_demit hr

/-- C5: every fragment returned by the sentence splitter, under either
extra-split setting, is a fixpoint of whitespace normalization and has length
within the configured bounds. -/
theorem claim_c5 (text : List Char) (min_len max_chars : Int) (es : Bool) :
    ∀ f ∈ split_sentence_like text min_len max_chars es,
      normWSL f = f ∧ min_len ≤ (f.length : Int) ∧ (f.length : Int) ≤ max_chars :=
  fun _ hf => split_fragment_props hf

/-- C5 witness: a concrete sentence whose single kept fragment is normalized
and in range. -/
theorem claim_c5_witness :
    ("hello world".data ∈ split_sentence_like "  hello   world  ".data 5 500 false) ∧
    (normWSL "hello world".data = "hello world".data ∧
     (5 : Int) ≤ ("hello world".data.length : Int) ∧
     ("hello world".data.length : Int) ≤ 500) :=
  ⟨by decide,
   claim_c5 "  hello   world  ".data 5 500 false "hello world".data (by decide)⟩

/-- C6 counterexample: the zero-length interval [5,5) is reported as
overlapping [0,10), so "a zero-length interval never overlaps anything" fails
on the code's overlap test. -/
theorem claim_c6_counterexample : overlaps 5 5 0 10 = true := by decide

/-- C6 (amended): the overlap test is symmetric and implements
`a0 < b1 and b0 < a1`; the three spec examples hold; a zero-length interval
[p,p) is reported as overlapping [b0,b1) exactly when b0 < p < b1 (so it
never overlaps itself or a touching interval, but the formula does report
overlap when its position lies strictly inside the other interval). -/
theorem claim_c6_amended :
    (∀ a0 a1 b0 b1 : Int, overlaps a0 a1 b0 b1 = overlaps b0 b1 a0 a1) ∧
    (∀ a0 a1 b0 b1 : Int, overlaps a0 a1 b0 b1 = true ↔ a0 < b1 ∧ b0 < a1) ∧
    overlaps 0 5 5 10 = false ∧ overlaps 0 5 4 10 = true ∧
    overlaps 0 5 0 5 = true ∧
    (∀ p b0 b1 : Int, overlaps p p b0 b1 = true ↔ b0 < p ∧ p < b1) := by
  refine ⟨?_, ?_, by decide, by decide, by decide, ?_⟩
  · intro a0 a1 b0 b1
    simp only [overlaps, Bool.and_comm]
  · intro a0 a1 b0 b1
    simp [overlaps]
  · intro p b0 b1
    simp only [overlaps]
    rw [Bool.and_eq_true_iff]
    constructor
    · rintro ⟨h1, h2⟩
      exact ⟨of_decide_eq_true h2, of_decide_eq_true h1⟩
    · rintro ⟨h1, h2⟩
      exact ⟨decide_eq_true h2, decide_eq_true h1⟩

/-- C7: both text normalizers are idempotent: normalizing twice equals
normalizing once, for every input string. -/
theorem claim_c7 (s : String) :
    normalize_text (normalize_text s) = normalize_text s ∧
    normalize_ws (normalize_ws s) = normalize_ws s :=
  ⟨congrArg String.mk (normTextL_idem s.data),
   congrArg String.mk (normWSL_idem s.data)⟩

/-- C10: on a completely empty input table the cleaning stage reports
all-zero counts (including a 0.0 kept fraction) and the output is never
opened: not even a header row is produced. -/
theorem claim_c10 (cfg : FilterCfg) (cs : Bool) :
    (pruneRun cfg cs []).output = none ∧
    (pruneRun cfg cs []).totalInput = 0 ∧
    (pruneRun cfg cs []).keptFilter = 0 ∧
    (pruneRun cfg cs []).keptDedupe = 0 ∧
    (pruneRun cfg cs []).keptFrac = 0 :=
  ⟨rfl, rfl, rfl, rfl, rfl⟩

/-- C2 counterexample: "www.example.com" has token count 1 (below the default
min_tokens of 4) and matches the URL pattern, yet the filter's reason is
"url_or_email", not "too_short" — because the token-count check runs after
the URL check. -/
theorem claim_c2_counterexample :
    (((pyWords (normTextL "www.example.com".data)).length : Int) <
      defaultCfg.min_tokens) ∧
    urlSearch (normTextL "www.example.com".data) = true ∧
    looks_like_sentence defaultCfg "www.example.com".data =
      (false, "url_or_email") := by
  refine ⟨by decide, by decide, by decide⟩

/-- C2 (amended): a text whose normalized length is below min_chars is
rejected as "too_short" even when it matches the URL/email pattern; but a
text at or above min_chars that matches the URL/email pattern is rejected as
"url_or_email" even when its token count is below min_tokens. -/
theorem claim_c2_amended (cfg : FilterCfg) (text : List Char) :
    (normTextL text ≠ [] → ((normTextL text).length : Int) < cfg.min_chars →
      looks_like_sentence cfg text = (false, "too_short")) ∧
    (cfg.min_chars ≤ ((normTextL text).length : Int) →
      (urlSearch (normTextL text) || emailSearch (normTextL text) ||
        ftSearch (normTextL text)) = true →
      looks_like_sentence cfg text = (false, "url_or_email")) := by
  constructor
  · intro hne hlt
    unfold looks_like_sentence
    dsimp only
    rw [if_neg (by simpa [List.isEmpty_iff] using hne), if_pos hlt]
  · intro hge hurl
    have hne : normTextL text ≠ [] := by
      intro hnil
      rw [hnil] at hurl
      exact absurd hurl (by decide)
    unfold looks_like_sentence
    dsimp only
    rw [if_neg (by simpa [List.isEmpty_iff] using hne),
      if_neg (not_lt.mpr hge), if_pos hurl]

/-- C2 witness: "short!!" is below min_chars and gets "too_short";
"www.example.com" is above min_chars, matches the URL pattern, and gets
"url_or_email". -/
theorem claim_c2_witness :
    (normTextL "short!!".data ≠ [] ∧
     ((normTextL "short!!".data).length : Int) < defaultCfg.min_chars ∧
     looks_like_sentence defaultCfg "short!!".data = (false, "too_short")) ∧
    (defaultCfg.min_chars ≤ ((normTextL "www.example.com".data).length : Int) ∧
     (urlSearch (normTextL "www.example.com".data) ||
       emailSearch (normTextL "www.example.com".data) ||
       ftSearch (normTextL "www.example.com".data)) = true ∧
     looks_like_sentence defaultCfg "www.example.com".data =
       (false, "url_or_email")) :=
  ⟨⟨by decide, by decide,
    (claim_c2_amended defaultCfg "short!!".data).1 (by decide) (by decide)⟩,
   ⟨by decide, by decide,
    (claim_c2_amended defaultCfg "www.example.com".data).2 (by decide) (by decide)⟩⟩

/-- C4 counterexample: with a header lacking a "text" column the run is not
fatal: it writes the header and even emits a data row (read from fallback
column 2). -/
theorem claim_c4_counterexample :
    ("text" ∉ (["doc", "sent_id", "txt", "y_any_event", "types"] : List String)) ∧
    (pruneRun defaultCfg false
        [["doc", "sent_id", "txt", "y_any_event", "types"],
         ["d", "0", "This is a perfectly normal sentence.", "1", ""]]).output =
      some [["doc", "sent_id", "txt", "y_any_event", "types"],
            ["d", "0", "This is a perfectly normal sentence.", "1", ""]] := by
  refine ⟨by decide, by decide⟩

/-- C4 (amended): when the header has no "text" column the run does not
abort: find_text_col falls back to column index 2 and the run proceeds,
writing the header row followed by the rows accepted using column 2 as the
text column. -/
theorem claim_c4_amended (cfg : FilterCfg) (cs : Bool) (header : List String)
    (dataRows : List (List String)) (h : "text" ∉ header) :
    find_text_col header = 2 ∧
    (pruneRun cfg cs (header :: dataRows)).output =
      some (header :: (pruneData cfg cs 2 dataRows).emitted) := by
  have hidx : header.indexOf? "text" = none := by
    rw [List.indexOf?_eq_none_iff]
    intro x hx
    intro hc
    exact h ((eq_of_beq hc) ▸ hx)
  have hcol : find_text_col header = 2 := by
    rw [find_text_col, hidx]
  refine ⟨hcol, ?_⟩
  rw [pruneRun]
  dsimp only
  rw [hcol]

/-- C4 witness: a concrete header without "text"; the fallback column is 2
and the output is written. -/
theorem claim_c4_witness :
    ("text" ∉ (["doc", "sent_id", "txt", "y_any_event", "types"] : List String)) ∧
    (find_text_col ["doc", "sent_id", "txt", "y_any_event", "types"] = 2 ∧
     (pruneRun defaultCfg false (["doc", "sent_id", "txt", "y_any_event", "types"] ::
        [["d", "0", "This is a perfectly normal sentence.", "1", ""]])).output =
       some (["doc", "sent_id", "txt", "y_any_event", "types"] ::
         (pruneData defaultCfg false 2
           [["d", "0", "This is a perfectly normal sentence.", "1", ""]]).emitted)) :=
  ⟨by decide,
   claim_c4_amended defaultCfg false ["doc", "sent_id", "txt", "y_any_event", "types"]
     [["d", "0", "This is a perfectly normal sentence.", "1", ""]] (by decide)⟩

/-- C8 counterexample: a first run that filters everything out leaves only
the header; the second run on that output reports a kept fraction of 0.0,
not 1.0. -/
theorem claim_c8_counterexample :
    (pruneRun defaultCfg false
        [["doc", "sent_id", "text", "y_any_event", "types"],
         ["d", "0", "short", "0", ""]]).output =
      some [["doc", "sent_id", "text", "y_any_event", "types"]] ∧
    (pruneRun defaultCfg false
        [["doc", "sent_id", "text", "y_any_event", "types"]]).keptFrac = 0 ∧
    ((0 : ℚ) ≠ 1) := by
  refine ⟨by decide, by decide, by decide⟩

/-- C8 (amended): running the filter+dedupe stage on its own output keeps
every row — the second run's output equals its input, and its after-filter
and after-dedupe counts both equal the number of data rows; the reported
kept fraction is 1.0 whenever the first run emitted at least one data row,
and 0.0 when it emitted none. -/
theorem claim_c8_amended (cfg : FilterCfg) (cs : Bool) (header : List String)
    (dataRows : List (List String)) (out1 : List (List String))
    (h : (pruneRun cfg cs (header :: dataRows)).output = some out1) :
    (pruneRun cfg cs out1).output = some out1 ∧
    (pruneRun cfg cs out1).keptFilter = out1.length - 1 ∧
    (pruneRun cfg cs out1).keptDedupe = out1.length - 1 ∧
    (2 ≤ out1.length → (pruneRun cfg cs out1).keptFrac = 1) ∧
    (out1.length = 1 → (pruneRun cfg cs out1).keptFrac = 0) := by
  rw [pruneRun] at h
  dsimp only at h
  have hout : out1 = header ::
      (pruneData cfg cs (find_text_col header) dataRows).emitted :=
    (Option.some.inj h).symm
  subst hout
  have hst := emitted_stable cfg cs (find_text_col header) dataRows
  have hnd : (((pruneData cfg cs (find_text_col header) dataRows).emitted).map
      (rowKey cs (find_text_col header))).Nodup := by
    rw [pruneData, pruneData_fold]
    dsimp only
    simp only [List.nil_append]
    exact (demit_nodup (rowKey cs (find_text_col header)) _ []
      (fun rk hrk => rowKey_acceptedKeyed hrk)).1
  set E := (pruneData cfg cs (find_text_col header) dataRows).emitted with hE
  obtain ⟨he, hf, hd⟩ := foldl_stable cfg cs (find_text_col header) E ⟨[], [], 0, 0⟩
    hst hnd (fun r _ => List.not_mem_nil _)
  simp only [List.nil_append, Nat.zero_add] at he hf hd
  rw [pruneRun]
  dsimp only
  rw [pruneData, he, hf, hd]
  refine ⟨rfl, by simp, by simp, ?_, ?_⟩
  · intro hlen
    simp only [List.length_cons] at hlen
    have hpos : 0 < E.length := by omega
    rw [if_pos hpos]
    rw [div_self]
    intro hc
    have := Nat.cast_eq_zero.mp hc
    omega
  · intro hlen
    simp only [List.length_cons] at hlen
    rw [if_neg (by omega)]

/-- C8 witness: a clean one-row corpus; the second run keeps the row and
reports a kept fraction of 1. -/
theorem claim_c8_witness :
    ((pruneRun defaultCfg false
        [["doc", "sent_id", "text", "y_any_event", "types"],
         ["d", "0", "This is a perfectly normal sentence.", "1", ""]]).output =
      some [["doc", "sent_id", "text", "y_any_event", "types"],
            ["d", "0", "This is a perfectly normal sentence.", "1", ""]]) ∧
    ((pruneRun defaultCfg false
        [["doc", "sent_id", "text", "y_any_event", "types"],
         ["d", "0", "This is a perfectly normal sentence.", "1", ""]]).output =
      some [["doc", "sent_id", "text", "y_any_event", "types"],
            ["d", "0", "This is a perfectly normal sentence.", "1", ""]] ∧
     (pruneRun defaultCfg false
        [["doc", "sent_id", "text", "y_any_event", "types"],
         ["d", "0", "This is a perfectly normal sentence.", "1", ""]]).keptFilter =
       ([["doc", "sent_id", "text", "y_any_event", "types"],
         ["d", "0", "This is a perfectly normal sentence.", "1", ""]] :
           List (List String)).length - 1 ∧
     (pruneRun defaultCfg false
        [["doc", "sent_id", "text", "y_any_event", "types"],
         ["d", "0", "This is a perfectly normal sentence.", "1", ""]]).keptDedupe =
       ([["doc", "sent_id", "text", "y_any_event", "types"],
         ["d", "0", "This is a perfectly normal sentence.", "1", ""]] :
           List (List String)).length - 1 ∧
     (2 ≤ ([["doc", "sent_id", "text", "y_any_event", "types"],
         ["d", "0", "This is a perfectly normal sentence.", "1", ""]] :
           List (List String)).length →
       (pruneRun defaultCfg false
        [["doc", "sent_id", "text", "y_any_event", "types"],
         ["d", "0", "This is a perfectly normal sentence.", "1", ""]]).keptFrac = 1) ∧
     (([["doc", "sent_id", "text", "y_any_event", "types"],
         ["d", "0", "This is a perfectly normal sentence.", "1", ""]] :
           List (List String)).length = 1 →
       (pruneRun defaultCfg false
        [["doc", "sent_id", "text", "y_any_event", "types"],
         ["d", "0", "This is a perfectly normal sentence.", "1", ""]]).keptFrac = 0)) :=
  ⟨by decide,
   claim_c8_amended defaultCfg false ["doc", "sent_id", "text", "y_any_event", "types"]
     [["d", "0", "This is a perfectly normal sentence.", "1", ""]]
     [["doc", "sent_id", "text", "y_any_event", "types"],
      ["d", "0", "This is a perfectly normal sentence.", "1", ""]] (by decide)⟩

/-- C9: when two input rows pass the filter and their texts normalize to the
identical string, only the first is emitted; both increment the after-filter
count (2) while only one survives dedupe (1), so the suppression shows up as
the gap between those two counts; the second row's attributed reason is
"ok", and no rejection reason in the histogram counts either row. -/
theorem claim_c9 (cfg : FilterCfg) (cs : Bool) (header r1 r2 : List String)
    (hv1 : (r1.isEmpty || decide (r1.length ≤ find_text_col header)) = false)
    (hv2 : (r2.isEmpty || decide (r2.length ≤ find_text_col header)) = false)
    (hl1 : (looks_like_sentence cfg (r1.getD (find_text_col header) "").data).1 = true)
    (hl2 : (looks_like_sentence cfg (r2.getD (find_text_col header) "").data).1 = true)
    (hnorm : normTextL (r1.getD (find_text_col header) "").data =
             normTextL (r2.getD (find_text_col header) "").data) :
    (pruneRun cfg cs [header, r1, r2]).output =
      some [header, setText r1 (find_text_col header)
        (normTextL (r1.getD (find_text_col header) "").data)] ∧
    (pruneRun cfg cs [header, r1, r2]).keptFilter = 2 ∧
    (pruneRun cfg cs [header, r1, r2]).keptDedupe = 1 ∧
    (looks_like_sentence cfg (r2.getD (find_text_col header) "").data).2 = "ok" ∧
    (∀ s, s ≠ "ok" → reasonsCount cfg (find_text_col header) [r1, r2] s = 0) := by
  have hstep1 : pruneStep cfg cs (find_text_col header) ⟨[], [], 0, 0⟩ r1 =
      ⟨[dedupeKey cs (normTextL (r1.getD (find_text_col header) "").data)],
       [setText r1 (find_text_col header)
         (normTextL (r1.getD (find_text_col header) "").data)], 1, 1⟩ := by
    rw [pruneStep, if_neg (by simp [hv1])]
    dsimp only
    rw [if_neg (by rw [hl1]; simp), if_neg (List.not_mem_nil _)]
    simp
  have hmem : dedupeKey cs (normTextL (r2.getD (find_text_col header) "").data) ∈
      [dedupeKey cs (normTextL (r1.getD (find_text_col header) "").data)] := by
    rw [← hnorm]
    exact List.mem_singleton.mpr rfl
  have hstep2 : pruneStep cfg cs (find_text_col header)
      ⟨[dedupeKey cs (normTextL (r1.getD (find_text_col header) "").data)],
       [setText r1 (find_text_col header)
         (normTextL (r1.getD (find_text_col header) "").data)], 1, 1⟩ r2 =
      ⟨[dedupeKey cs (normTextL (r1.getD (find_text_col header) "").data)],
       [setText r1 (find_text_col header)
         (normTextL (r1.getD (find_text_col header) "").data)], 2, 1⟩ := by
    rw [pruneStep, if_neg (by simp [hv2])]
    dsimp only
    rw [if_neg (by rw [hl2]; simp), if_pos hmem]
  have hr1ok : looks_like_sentence cfg (r1.getD (find_text_col header) "").data =
      (true, "ok") := looks_ok_reason hl1
  have hr2ok : looks_like_sentence cfg (r2.getD (find_text_col header) "").data =
      (true, "ok") := looks_ok_reason hl2
  have hrun : pruneRun cfg cs [header, r1, r2] =
      ⟨some [header, setText r1 (find_text_col header)
        (normTextL (r1.getD (find_text_col header) "").data)], 3, 2, 1,
        (1 : ℚ) / 2⟩ := by
    rw [pruneRun]
    rw [pruneData, List.foldl_cons, hstep1, List.foldl_cons, hstep2, List.foldl_nil]
    norm_num
  refine ⟨by rw [hrun], by rw [hrun], by rw [hrun], by rw [hr2ok], ?_⟩
  intro s hs
  have ho1 : reasonOf cfg (find_text_col header) r1 = "ok" := by
    rw [reasonOf, if_neg (by simp [hv1]), hr1ok]
  have ho2 : reasonOf cfg (find_text_col header) r2 = "ok" := by
    rw [reasonOf, if_neg (by simp [hv2]), hr2ok]
  have hb1 : (reasonOf cfg (find_text_col header) r1 == s) = false := by
    rw [ho1]
    exact beq_eq_false_iff_ne.mpr fun hc => hs hc.symm
  have hb2 : (reasonOf cfg (find_text_col header) r2 == s) = false := by
    rw [ho2]
    exact beq_eq_false_iff_ne.mpr fun hc => hs hc.symm
  rw [reasonsCount, List.filter_cons, if_neg (by simp [hb1]),
    List.filter_cons, if_neg (by simp [hb2]), List.filter_nil]
  rfl

/-- C9 witness: two concrete rows whose texts differ only in whitespace; the
first is emitted, the counts are 2 and 1, the second row's reason is "ok",
and the "too_short" counter stays 0. -/
theorem claim_c9_witness :
    ((["d", "0", "This is a perfectly normal sentence.", "1", ""] : List String).isEmpty ||
      decide ((["d", "0", "This is a perfectly normal sentence.", "1", ""] : List String).length ≤
        find_text_col ["doc", "sent_id", "text", "y_any_event", "types"])) = false ∧
    ((["d", "1", "This  is a  perfectly normal sentence.", "1", ""] : List String).isEmpty ||
      decide ((["d", "1", "This  is a  perfectly normal sentence.", "1", ""] : List String).length ≤
        find_text_col ["doc", "sent_id", "text", "y_any_event", "types"])) = false ∧
    (looks_like_sentence defaultCfg
      ((["d", "0", "This is a perfectly normal sentence.", "1", ""] : List String).getD
        (find_text_col ["doc", "sent_id", "text", "y_any_event", "types"]) "").data).1 = true ∧
    (looks_like_sentence defaultCfg
      ((["d", "1", "This  is a  perfectly normal sentence.", "1", ""] : List String).getD
        (find_text_col ["doc", "sent_id", "text", "y_any_event", "types"]) "").data).1 = true ∧
    normTextL ((["d", "0", "This is a perfectly normal sentence.", "1", ""] : List String).getD
        (find_text_col ["doc", "sent_id", "text", "y_any_event", "types"]) "").data =
      normTextL ((["d", "1", "This  is a  perfectly normal sentence.", "1", ""] : List String).getD
        (find_text_col ["doc", "sent_id", "text", "y_any_event", "types"]) "").data ∧
    (pruneRun defaultCfg false [["doc", "sent_id", "text", "y_any_event", "types"],
        ["d", "0", "This is a perfectly normal sentence.", "1", ""],
        ["d", "1", "This  is a  perfectly normal sentence.", "1", ""]]).output =
      some [["doc", "sent_id", "text", "y_any_event", "types"],
        setText ["d", "0", "This is a perfectly normal sentence.", "1", ""]
          (find_text_col ["doc", "sent_id", "text", "y_any_event", "types"])
          (normTextL ((["d", "0", "This is a perfectly normal sentence.", "1", ""] :
            List String).getD
            (find_text_col ["doc", "sent_id", "text", "y_any_event", "types"]) "").data)] ∧
    (pruneRun defaultCfg false [["doc", "sent_id", "text", "y_any_event", "types"],
        ["d", "0", "This is a perfectly normal sentence.", "1", ""],
        ["d", "1", "This  is a  perfectly normal sentence.", "1", ""]]).keptFilter = 2 ∧
    (pruneRun defaultCfg false [["doc", "sent_id", "text", "y_any_event", "types"],
        ["d", "0", "This is a perfectly normal sentence.", "1", ""],
        ["d", "1", "This  is a  perfectly normal sentence.", "1", ""]]).keptDedupe = 1 ∧
    (looks_like_sentence defaultCfg
      ((["d", "1", "This  is a  perfectly normal sentence.", "1", ""] : List String).getD
        (find_text_col ["doc", "sent_id", "text", "y_any_event", "types"]) "").data).2 = "ok" ∧
    reasonsCount defaultCfg (find_text_col ["doc", "sent_id", "text", "y_any_event", "types"])
      [["d", "0", "This is a perfectly normal sentence.", "1", ""],
       ["d", "1", "This  is a  perfectly normal sentence.", "1", ""]] "too_short" = 0 := by
  have h := claim_c9 defaultCfg false ["doc", "sent_id", "text", "y_any_event", "types"]
    ["d", "0", "This is a perfectly normal sentence.", "1", ""]
    ["d", "1", "This  is a  perfectly normal sentence.", "1", ""]
    (by decide) (by decide) (by decide) (by decide) (by decide)
  exact ⟨by decide, by decide, by decide, by decide, by decide,
    h.1, h.2.1, h.2.2.1, h.2.2.2.1, h.2.2.2.2 "too_short" (by decide)⟩

end Sentifm
